import Mathlib

set_option maxRecDepth 40000

/-!
A Lean model of the UF2 encoder/serializer from `src/main.rs` of the
`uf2-util` repository.  Bytes are modelled as `Nat` (values `< 256` where the
code stores `u8`), 32-bit machine integers as `Nat` reduced modulo `2^32`
where the Rust code casts or can wrap, and byte buffers as `List Nat`.
-/

/-- Truncation to 32 bits: models Rust `u32` arithmetic (`as u32` casts and the
wrapping behaviour of `u32` addition and multiplication). -/
def U32 (n : Nat) : Nat := n % 4294967296

/-- The four little-endian bytes of a 32-bit value.  These are the four bytes
pushed by `write_little_endian` in the source: `block & 0xFF`,
`(block & 0xFF00) >> 8`, `(block & 0xFF0000) >> 16` and `(block >> 24) as u8`,
written arithmetically. -/
def le32 (block : Nat) : List Nat :=
  [block % 256, block / 256 % 256, block / 65536 % 256, block / 16777216 % 256]

/-- Models `fn write_little_endian(vec: &mut Vec<u8>, block: u32)`
(src/main.rs lines 67-72): appends the four little-endian bytes of `block`
to `vec`. -/
def write_little_endian (vec : List Nat) (block : Nat) : List Nat :=
  vec ++ le32 block

/-- Modelled from the spec: `Uf2::create` calls `crc32` from `mod crc`
(`src/crc.rs`), a file that is not among the provided sources.  Spec §4.1
step 3 says "Compute a 32-bit checksum (CRC-32, standard polynomial)".  This
is one bit-round of the standard (bit-reflected, IEEE 802.3) CRC-32, with
reflected polynomial `0xEDB88320`. -/
def crc32Round (c : Nat) : Nat :=
  if c % 2 = 1 then Nat.xor (c / 2) 0xEDB88320 else c / 2

/-- Modelled from the spec: folding one input byte into the running CRC-32
state (xor the byte into the low bits, then eight bit-rounds). -/
def crc32Byte (c b : Nat) : Nat := crc32Round^[8] (Nat.xor c (b % 256))

/-- Modelled from the spec: the standard CRC-32 of a byte list (initial state
`0xFFFFFFFF`, final xor `0xFFFFFFFF`). -/
def crc32 (data : List Nat) : Nat :=
  Nat.xor (List.foldl crc32Byte 0xFFFFFFFF data) 0xFFFFFFFF

/-- Structural worker for `chunksOf`: `fuel` bounds the recursion depth so the
definition is structurally recursive (and hence computes by reduction).  With
`fuel ≥ l.length` and `0 < n` the fuel is never exhausted. -/
def chunksOfGo (n : Nat) : Nat → List Nat → List (List Nat)
  | _, [] => []
  | 0, _ => []
  | fuel + 1, l => l.take n :: chunksOfGo n fuel (l.drop n)

/-- Models Rust `slice::chunks(n)` (used as `remaining_bytes.chunks(256)` in
`Uf2::create`): splits `l` into consecutive chunks of `n` elements, the last
chunk possibly shorter.  (Rust panics on `n = 0`; the call site always passes
`256`, and this model returns `[]` in that degenerate case.) -/
def chunksOf (n : Nat) (l : List Nat) : List (List Nat) :=
  chunksOfGo n l.length l

/-- Models `struct Uf2Block` (src/main.rs lines 30-42). -/
structure Uf2Block where
  magic_0 : Nat
  magic_1 : Nat
  flags : Nat
  target_addr : Nat
  payload_size : Nat
  block_no : Nat
  num_blocks : Nat
  file_size : Nat
  data : List Nat
  magic_end : Nat

/-- Models `Uf2Block::allocate` (src/main.rs lines 45-60): fills in the
constant magic numbers, flags, payload size and family id. -/
def Uf2Block.allocate (target_addr block_no num_blocks : Nat) (data : List Nat) :
    Uf2Block :=
  { magic_0 := 0x0A324655
    magic_1 := 0x9E5D5157
    flags := 0x00002000
    target_addr := target_addr
    payload_size := 256
    block_no := block_no
    num_blocks := num_blocks
    file_size := 0xe48bff56
    data := data
    magic_end := 0x0AB16F30 }

/-- Models `struct Uf2` (src/main.rs lines 63-65). -/
structure Uf2 where
  blocks : List Uf2Block

/-- The first-chunk buffer built by `Uf2::create` (src/main.rs lines 79-99):
read up to 252 bytes, zero-pad to exactly 252, append the CRC-32 of those 252
bytes in little-endian, then zero-pad the whole buffer to 476 bytes. -/
def firstData (hex_file : List Nat) : List Nat :=
  let buffer0 := hex_file.take 252
  let buffer1 := buffer0 ++ List.replicate (252 - buffer0.length) 0
  let buffer2 := write_little_endian buffer1 (crc32 buffer1)
  buffer2 ++ List.replicate (476 - buffer2.length) 0

/-- The chunk block allocated by the loop body of `Uf2::create`
(src/main.rs lines 103-115), where `idx` is `blocks.len()` at push time:
`Uf2Block::allocate(base_addr + blocks.len() as u32 * 256, blocks.len() as u32,
num_blocks + 1, data)` with `data` the chunk zero-padded to 476 bytes.
All the `u32` casts and wrapping operations are made explicit with `U32`. -/
def mkChunkBlock (num_blocks idx : Nat) (chunk : List Nat) : Uf2Block :=
  Uf2Block.allocate (U32 (0x10000000 + U32 (U32 idx * 256))) (U32 idx)
    (U32 (num_blocks + 1)) (chunk ++ List.replicate (476 - chunk.length) 0)

/-- The loop body of `for chunk in chunks` in `Uf2::create`: push one chunk
block onto the accumulated block list. -/
def chunkStep (num_blocks : Nat) (blocks : List Uf2Block) (chunk : List Nat) :
    List Uf2Block :=
  blocks ++ [mkChunkBlock num_blocks blocks.length chunk]

/-- Models `Uf2::create` (src/main.rs lines 75-121).  The first 252 bytes
(`hex_file.take(252)`) feed the checksum block via `firstData`; the iterator
`hex_file.iter().skip(256)` drops the first 256 bytes, the rest is chunked
into 256-byte chunks, and each chunk is pushed as a block by `chunkStep`. -/
def Uf2.create (hex_file : List Nat) : Uf2 :=
  let chunks := chunksOf 256 (hex_file.drop 256)
  let num_blocks := U32 chunks.length
  { blocks :=
      chunks.foldl (chunkStep num_blocks)
        [Uf2Block.allocate 0x10000000 0 (U32 (num_blocks + 1)) (firstData hex_file)] }

/-- The per-block body of the serializing loop in `Uf2::as_bytes`
(src/main.rs lines 129-144): the eight little-endian header words, the data
bytes, zero padding up to 476 data bytes, and the final magic word. -/
def writeBlock (buf : List Nat) (block : Uf2Block) : List Nat :=
  let b1 := write_little_endian buf block.magic_0
  let b2 := write_little_endian b1 block.magic_1
  let b3 := write_little_endian b2 block.flags
  let b4 := write_little_endian b3 block.target_addr
  let b5 := write_little_endian b4 block.payload_size
  let b6 := write_little_endian b5 block.block_no
  let b7 := write_little_endian b6 block.num_blocks
  let b8 := write_little_endian b7 block.file_size
  let b9 := b8 ++ block.data ++ List.replicate (476 - block.data.length) 0
  write_little_endian b9 block.magic_end

/-- Models `Uf2::as_bytes` (src/main.rs lines 123-147).  The Rust source
computes `let remaining = 476 - block.data.len();` with `usize` arithmetic,
which panics when a block's data exceeds 476 bytes; that failure is modelled
by returning `none`.  On blocks whose data is at most 476 bytes the output is
the faithful byte stream. -/
def Uf2.as_bytes (u : Uf2) : Option (List Nat) :=
  if u.blocks.all (fun b => decide (b.data.length ≤ 476)) then
    some (u.blocks.foldl writeBlock [])
  else none

/-- Wire layout of one serialized block exactly as spec §4.2 enumerates it:
the eight little-endian header words (with the constant values spelled out),
the data zero-padded to 476 bytes, and the trailing magic word. -/
def specBlockLayout (b : Uf2Block) : List Nat :=
  le32 0x0A324655 ++ le32 0x9E5D5157 ++ le32 0x00002000 ++ le32 b.target_addr ++
    le32 256 ++ le32 b.block_no ++ le32 b.num_blocks ++ le32 0xE48BFF56 ++
    (b.data ++ List.replicate (476 - b.data.length) 0) ++ le32 0x0AB16F30

/-- The list of chunk blocks produced by the encoding loop, indexed from
`start` (the value of `blocks.len()` when the chunk is pushed). -/
def buildFrom (num_blocks start : Nat) : List (List Nat) → List Uf2Block
  | [] => []
  | c :: cs => mkChunkBlock num_blocks start c :: buildFrom num_blocks (start + 1) cs

lemma buildFrom_length (num_blocks : Nat) :
    ∀ (cs : List (List Nat)) (start : Nat), (buildFrom num_blocks start cs).length = cs.length := by
  intro cs
  induction cs with
  | nil => intro start; rfl
  | cons c cs ih => intro start; simp [buildFrom, ih]

lemma buildFrom_getElem (num_blocks : Nat) :
    ∀ (cs : List (List Nat)) (start k : Nat) (h : k < (buildFrom num_blocks start cs).length),
      (buildFrom num_blocks start cs)[k] = mkChunkBlock num_blocks (start + k)
        (cs.get ⟨k, by have := buildFrom_length num_blocks cs start; omega⟩) := by
  intro cs
  induction cs with
  | nil => intro start k h; simp [buildFrom] at h
  | cons c cs ih =>
    intro start k h
    cases k with
    | zero => simp [buildFrom]
    | succ k =>
      have h' : k < (buildFrom num_blocks (start + 1) cs).length := by
        simpa [buildFrom] using h
      have := ih (start + 1) k h'
      simp only [buildFrom, List.getElem_cons_succ, this]
      congr 1
      omega

lemma foldl_chunkStep (num_blocks : Nat) :
    ∀ (cs : List (List Nat)) (bs : List Uf2Block),
      List.foldl (chunkStep num_blocks) bs cs = bs ++ buildFrom num_blocks bs.length cs := by
  intro cs
  induction cs with
  | nil => intro bs; simp [buildFrom]
  | cons c cs ih =>
    intro bs
    rw [List.foldl_cons, ih]
    simp [chunkStep, buildFrom, List.append_assoc]

/-- Characterization of `Uf2.create`: the first (checksum) block followed by
one block per 256-byte chunk of the input with its first 256 bytes dropped. -/
lemma create_blocks (input : List Nat) :
    (Uf2.create input).blocks =
      Uf2Block.allocate 0x10000000 0
          (U32 (U32 (chunksOf 256 (input.drop 256)).length + 1)) (firstData input) ::
        buildFrom (U32 (chunksOf 256 (input.drop 256)).length) 1
          (chunksOf 256 (input.drop 256)) := by
  simp only [Uf2.create]
  rw [foldl_chunkStep]
  simp

lemma blocks_length (input : List Nat) :
    (Uf2.create input).blocks.length = (chunksOf 256 (input.drop 256)).length + 1 := by
  rw [create_blocks]
  simp [buildFrom_length]

lemma chunksOfGo_length (fuel : Nat) :
    ∀ l : List Nat, l.length ≤ fuel →
      (chunksOfGo 256 fuel l).length = (l.length + 255) / 256 := by
  induction fuel with
  | zero =>
    intro l h
    have : l = [] := List.eq_nil_of_length_eq_zero (Nat.le_zero.mp h)
    subst this
    simp [chunksOfGo]
  | succ fuel ih =>
    intro l h
    cases l with
    | nil => simp [chunksOfGo]
    | cons x xs =>
      have hlen : ((x :: xs).drop 256).length ≤ fuel := by
        simp only [List.length_drop, List.length_cons]
        simp only [List.length_cons] at h
        omega
      simp only [chunksOfGo, List.length_cons, ih _ hlen, List.length_drop]
      omega

lemma chunksOf_length (l : List Nat) :
    (chunksOf 256 l).length = (l.length + 255) / 256 := by
  exact chunksOfGo_length l.length l le_rfl

lemma chunksOfGo_getElem (fuel : Nat) :
    ∀ (l : List Nat) (k : Nat) (h : k < (chunksOfGo 256 fuel l).length),
      (chunksOfGo 256 fuel l)[k] = (l.drop (k * 256)).take 256 := by
  induction fuel with
  | zero =>
    intro l k h
    cases l <;> simp [chunksOfGo] at h
  | succ fuel ih =>
    intro l k h
    cases l with
    | nil => simp [chunksOfGo] at h
    | cons x xs =>
      cases k with
      | zero => simp [chunksOfGo]
      | succ k =>
        have h' : k < (chunksOfGo 256 fuel ((x :: xs).drop 256)).length := by
          simpa [chunksOfGo] using h
        simp only [chunksOfGo, List.getElem_cons_succ, ih _ k h']
        rw [List.drop_drop]
        congr 2
        omega

lemma chunksOf_getElem (l : List Nat) (k : Nat) (h : k < (chunksOf 256 l).length) :
    (chunksOf 256 l)[k] = (l.drop (k * 256)).take 256 :=
  chunksOfGo_getElem l.length l k h

lemma chunksOf_mem_length (l c : List Nat) (hc : c ∈ chunksOf 256 l) : c.length ≤ 256 := by
  obtain ⟨i, hi, rfl⟩ := List.mem_iff_getElem.mp hc
  rw [chunksOf_getElem l i hi]
  simp only [List.length_take]
  omega

/-- The 252-byte zero-padded first-chunk content, as both the code builds it
and the claims describe it. -/
lemma firstData_buffer1 (input : List Nat) :
    input.take 252 ++ List.replicate (252 - (input.take 252).length) 0 =
      input.take 252 ++ List.replicate (252 - input.length) 0 := by
  congr 2
  simp only [List.length_take]
  omega

lemma firstPadded_length (input : List Nat) :
    (input.take 252 ++ List.replicate (252 - input.length) 0).length = 252 := by
  simp only [List.length_append, List.length_take, List.length_replicate]
  omega

lemma firstData_eq (input : List Nat) :
    firstData input =
      (input.take 252 ++ List.replicate (252 - input.length) 0) ++
        (le32 (crc32 (input.take 252 ++ List.replicate (252 - input.length) 0)) ++
          List.replicate 220 0) := by
  simp only [firstData, write_little_endian, firstData_buffer1]
  have h : ((input.take 252 ++ List.replicate (252 - input.length) 0) ++
      le32 (crc32 (input.take 252 ++ List.replicate (252 - input.length) 0))).length = 256 := by
    simp only [List.length_append, List.length_take, List.length_replicate, le32,
      List.length_cons, List.length_nil]
    omega
  rw [h]
  simp [List.append_assoc]

lemma firstData_length (input : List Nat) : (firstData input).length = 476 := by
  rw [firstData_eq]
  simp only [List.length_append, List.length_take, le32, List.length_cons,
    List.length_nil, List.length_replicate]
  omega

lemma blocks_data_length (input : List Nat) (b : Uf2Block)
    (hb : b ∈ (Uf2.create input).blocks) : b.data.length = 476 := by
  rw [create_blocks] at hb
  rcases List.mem_cons.mp hb with hb | hb
  · subst hb
    exact firstData_length input
  · obtain ⟨i, hi, rfl⟩ := List.mem_iff_getElem.mp hb
    rw [buildFrom_getElem _ _ _ _ hi]
    have hc : (chunksOf 256 (input.drop 256)).get
        ⟨i, by have := buildFrom_length (U32 (chunksOf 256 (input.drop 256)).length)
                 (chunksOf 256 (input.drop 256)) 1; omega⟩ ∈ chunksOf 256 (input.drop 256) :=
      List.get_mem _ _ _
    have hlen := chunksOf_mem_length _ _ hc
    simp only [mkChunkBlock, Uf2Block.allocate, List.length_append, List.length_replicate]
    omega

lemma blocks_const_fields (input : List Nat) (b : Uf2Block)
    (hb : b ∈ (Uf2.create input).blocks) :
    b.magic_0 = 0x0A324655 ∧ b.magic_1 = 0x9E5D5157 ∧ b.flags = 0x00002000 ∧
      b.payload_size = 256 ∧ b.file_size = 0xE48BFF56 ∧ b.magic_end = 0x0AB16F30 := by
  rw [create_blocks] at hb
  rcases List.mem_cons.mp hb with hb | hb
  · subst hb
    exact ⟨rfl, rfl, rfl, rfl, rfl, rfl⟩
  · obtain ⟨i, hi, rfl⟩ := List.mem_iff_getElem.mp hb
    rw [buildFrom_getElem _ _ _ _ hi]
    exact ⟨rfl, rfl, rfl, rfl, rfl, rfl⟩

lemma writeBlock_append (buf : List Nat) (b : Uf2Block) :
    writeBlock buf b = buf ++ writeBlock [] b := by
  simp [writeBlock, write_little_endian, List.append_assoc]

lemma foldl_writeBlock :
    ∀ (bs : List Uf2Block) (buf : List Nat),
      List.foldl writeBlock buf bs = buf ++ (bs.map (writeBlock [])).flatten := by
  intro bs
  induction bs with
  | nil => intro buf; simp
  | cons b bs ih =>
    intro buf
    rw [List.foldl_cons, ih, writeBlock_append]
    simp [List.append_assoc]

lemma writeBlock_nil_eq (b : Uf2Block) :
    writeBlock [] b =
      le32 b.magic_0 ++ le32 b.magic_1 ++ le32 b.flags ++ le32 b.target_addr ++
        le32 b.payload_size ++ le32 b.block_no ++ le32 b.num_blocks ++ le32 b.file_size ++
        (b.data ++ List.replicate (476 - b.data.length) 0) ++ le32 b.magic_end := by
  simp [writeBlock, write_little_endian, List.append_assoc]

lemma writeBlock_length (b : Uf2Block) (h : b.data.length ≤ 476) :
    (writeBlock [] b).length = 512 := by
  rw [writeBlock_nil_eq]
  simp only [List.length_append, le32, List.length_cons, List.length_nil,
    List.length_replicate]
  omega

/-- On every image the encoder produces, `as_bytes` succeeds and returns the
concatenation of the per-block byte records. -/
lemma as_bytes_create (input : List Nat) :
    (Uf2.create input).as_bytes =
      some (((Uf2.create input).blocks.map (writeBlock [])).flatten) := by
  have hall : (Uf2.create input).blocks.all (fun b => decide (b.data.length ≤ 476)) = true := by
    rw [List.all_eq_true]
    intro b hb
    rw [decide_eq_true_eq, blocks_data_length input b hb]
  rw [Uf2.as_bytes, if_pos hall, foldl_writeBlock]
  simp

lemma le32_length (n : Nat) : (le32 n).length = 4 := rfl

lemma firstData_take (input : List Nat) :
    (firstData input).take 252 = input.take 252 ++ List.replicate (252 - input.length) 0 := by
  rw [firstData_eq]
  exact List.take_left' (firstPadded_length input)

lemma firstData_crcBytes (input : List Nat) :
    ((firstData input).drop 252).take 4 =
      le32 (crc32 (input.take 252 ++ List.replicate (252 - input.length) 0)) := by
  rw [firstData_eq, List.drop_left' (firstPadded_length input)]
  exact List.take_left' (le32_length _)

/-- C1: the first block of `encode(input)` carries the first 252 input bytes,
zero-padded with trailing zeros to 252 bytes, in data positions [0..252), and
the little-endian CRC-32 of those 252 padded bytes in positions [252..256). -/
theorem spec_C1 (input : List Nat) :
    ((Uf2.create input).blocks.head?).map
        (fun b => (b.data.take 252, (b.data.drop 252).take 4)) =
      some (input.take 252 ++ List.replicate (252 - input.length) 0,
        le32 (crc32 (input.take 252 ++ List.replicate (252 - input.length) 0))) := by
  rw [create_blocks]
  simp only [List.head?_cons, Option.map_some', Uf2Block.allocate]
  rw [firstData_take, firstData_crcBytes]

/-- C2: for every input, serializing the encoded image succeeds and the output
length is exactly 512 times the number of blocks. -/
theorem spec_C2 (input : List Nat) :
    ((Uf2.create input).as_bytes).map List.length =
      some (512 * (Uf2.create input).blocks.length) := by
  rw [as_bytes_create]
  simp only [Option.map_some', Option.some.injEq]
  rw [List.length_flatten, List.map_map]
  have hrep : (Uf2.create input).blocks.map (List.length ∘ writeBlock []) =
      List.replicate (Uf2.create input).blocks.length 512 := by
    rw [List.eq_replicate_iff]
    refine ⟨by simp, ?_⟩
    intro x hx
    obtain ⟨b, hb, rfl⟩ := List.mem_map.mp hx
    exact writeBlock_length b (le_of_eq (blocks_data_length input b hb))
  rw [hrep, List.sum_replicate, smul_eq_mul, Nat.mul_comm]

/-- C3: the serialized image is the concatenation, block by block, of the
eight little-endian header words (with the constant values `magic0 =
0x0A324655`, `magic1 = 0x9E5D5157`, `flags = 0x00002000`, `payloadSize = 256`,
`familyId = 0xE48BFF56`), the 476 data bytes (zero-padded if shorter) and the
little-endian `magicEnd = 0x0AB16F30`; and every such block record is exactly
512 bytes long. -/
theorem spec_C3 (input : List Nat) :
    (Uf2.create input).as_bytes =
      some (((Uf2.create input).blocks.map specBlockLayout).flatten) ∧
    ((Uf2.create input).blocks.map specBlockLayout).all
        (fun l => decide (l.length = 512)) = true := by
  have hmap : (Uf2.create input).blocks.map (writeBlock []) =
      (Uf2.create input).blocks.map specBlockLayout := by
    apply List.map_congr_left
    intro b hb
    obtain ⟨h0, h1, h2, h3, h4, h5⟩ := blocks_const_fields input b hb
    rw [writeBlock_nil_eq, specBlockLayout, h0, h1, h2, h3, h4, h5]
  constructor
  · rw [as_bytes_create, hmap]
  · rw [← hmap, List.all_eq_true]
    intro l hl
    obtain ⟨b, hb, rfl⟩ := List.mem_map.mp hl
    rw [decide_eq_true_eq]
    exact writeBlock_length b (le_of_eq (blocks_data_length input b hb))

/-- C7: encode is total and always produces at least one block; every block's
data is at most 476 bytes, so serialization never fails on encoder output. -/
theorem spec_C7 (input : List Nat) :
    (Uf2.create input).blocks.isEmpty = false ∧
      (Uf2.create input).blocks.all (fun b => decide (b.data.length ≤ 476)) = true ∧
      (Uf2.create input).as_bytes.isSome = true := by
  refine ⟨?_, ?_, ?_⟩
  · rw [create_blocks]
    rfl
  · rw [List.all_eq_true]
    intro b hb
    rw [decide_eq_true_eq, blocks_data_length input b hb]
  · rw [as_bytes_create]
    rfl

/-- C8: the encode-then-serialize pipeline is deterministic, a pure function
of the input bytes: equal inputs give byte-identical outputs. -/
theorem spec_C8 (input1 input2 : List Nat) (h : input1 = input2) :
    (Uf2.create input1).as_bytes = (Uf2.create input2).as_bytes := by
  rw [h]

theorem spec_C8_witness :
    ([] : List Nat) = ([] : List Nat) ∧
      (Uf2.create []).as_bytes = (Uf2.create []).as_bytes :=
  ⟨rfl, spec_C8 [] [] rfl⟩

/-- C9: every block the encoder produces has a data field of exactly 476
bytes, so the serializer's padding loop for shorter data adds zero bytes. -/
theorem spec_C9 (input : List Nat) :
    (Uf2.create input).blocks.all (fun b => decide (b.data.length = 476)) = true ∧
      (Uf2.create input).blocks.all (fun b => decide (476 - b.data.length = 0)) = true := by
  constructor <;> (rw [List.all_eq_true]; intro b hb; rw [decide_eq_true_eq])
  · exact blocks_data_length input b hb
  · rw [blocks_data_length input b hb]

/-- C4: block `i` of the encoded image has `blockIndex = i`, `totalBlocks` =
the image's block count, and `targetAddress = 0x10000000 + i*256`, all as
32-bit values (the fields are `u32`, so equality is modulo `2^32`; for any
image smaller than 4 GiB the reductions are the identity). -/
theorem spec_C4 (input : List Nat) (i : Nat) (h : i < (Uf2.create input).blocks.length) :
    ((Uf2.create input).blocks[i]?).map
        (fun b => (b.block_no, b.num_blocks, b.target_addr)) =
      some (U32 i, U32 ((Uf2.create input).blocks.length), U32 (0x10000000 + i * 256)) := by
  rw [blocks_length] at h ⊢
  rw [create_blocks]
  cases i with
  | zero =>
    simp only [List.getElem?_cons_zero, Option.map_some', Uf2Block.allocate,
      Option.some.injEq, Prod.mk.injEq, U32]
    exact ⟨trivial, by omega, trivial⟩
  | succ k =>
    have hk : k < (buildFrom (U32 (chunksOf 256 (input.drop 256)).length) 1
        (chunksOf 256 (input.drop 256))).length := by
      rw [buildFrom_length]
      omega
    rw [List.getElem?_cons_succ, List.getElem?_eq_getElem hk, buildFrom_getElem _ _ _ _ hk]
    simp only [Option.map_some', mkChunkBlock, Uf2Block.allocate, Option.some.injEq,
      Prod.mk.injEq, U32]
    omega

theorem spec_C4_witness :
    0 < (Uf2.create []).blocks.length ∧
      ((Uf2.create []).blocks[0]?).map
          (fun b => (b.block_no, b.num_blocks, b.target_addr)) =
        some (U32 0, U32 ((Uf2.create []).blocks.length), U32 (0x10000000 + 0 * 256)) :=
  ⟨by decide, spec_C4 [] 0 (by decide)⟩

/-- C5: for inputs of at least 256 bytes, the number of blocks is
`ceil((len - 256) / 256) + 1`, written with natural-number arithmetic as
`(len - 256 + 255) / 256 + 1`. -/
theorem spec_C5 (input : List Nat) (_h : 256 ≤ input.length) :
    (Uf2.create input).blocks.length = (input.length - 256 + 255) / 256 + 1 := by
  rw [blocks_length, chunksOf_length]
  simp [List.length_drop]

theorem spec_C5_witness :
    (256 ≤ (List.replicate 256 0).length ∧
      (Uf2.create (List.replicate 256 0)).blocks.length =
        ((List.replicate 256 0).length - 256 + 255) / 256 + 1) ∧
    (256 ≤ (List.replicate 513 1).length ∧
      (Uf2.create (List.replicate 513 1)).blocks.length =
        ((List.replicate 513 1).length - 256 + 255) / 256 + 1) :=
  ⟨⟨by decide, spec_C5 (List.replicate 256 0) (by decide)⟩,
   ⟨by decide, spec_C5 (List.replicate 513 1) (by decide)⟩⟩

/-- C6: the encoder skips the first 256 input bytes before chunking, and chunk
block `k+1` carries input bytes `[256 + k*256 .. 256 + (k+1)*256)` (clipped at
the input's end), zero-padded to 476 bytes, as its data field. -/
theorem spec_C6 (input : List Nat) (k : Nat)
    (h : k + 1 < (Uf2.create input).blocks.length) :
    ((Uf2.create input).blocks[k + 1]?).map Uf2Block.data =
      some ((input.drop (256 + k * 256)).take 256 ++
        List.replicate (476 - ((input.drop (256 + k * 256)).take 256).length) 0) := by
  rw [blocks_length] at h
  rw [create_blocks]
  have hk : k < (buildFrom (U32 (chunksOf 256 (input.drop 256)).length) 1
      (chunksOf 256 (input.drop 256))).length := by
    rw [buildFrom_length]
    omega
  rw [List.getElem?_cons_succ, List.getElem?_eq_getElem hk, buildFrom_getElem _ _ _ _ hk]
  simp only [Option.map_some', mkChunkBlock, Uf2Block.allocate, Option.some.injEq,
    List.get_eq_getElem]
  rw [chunksOf_getElem _ k (by rw [buildFrom_length] at hk; exact hk), List.drop_drop]

theorem spec_C6_witness :
    0 + 1 < (Uf2.create (List.replicate 257 9)).blocks.length ∧
      ((Uf2.create (List.replicate 257 9)).blocks[0 + 1]?).map Uf2Block.data =
        some (((List.replicate 257 9).drop (256 + 0 * 256)).take 256 ++
          List.replicate
            (476 - (((List.replicate 257 9).drop (256 + 0 * 256)).take 256).length) 0) :=
  ⟨by decide, spec_C6 (List.replicate 257 9) 0 (by decide)⟩

lemma create_congr (input1 input2 : List Nat)
    (h252 : input1.take 252 = input2.take 252)
    (h256 : input1.drop 256 = input2.drop 256) :
    Uf2.create input1 = Uf2.create input2 := by
  simp only [Uf2.create, firstData, h252, h256]

lemma agree_take (input1 input2 : List Nat) (hlen : input1.length = input2.length)
    (hagree : ∀ j, j < input1.length → j < 252 ∨ 256 ≤ j → input1[j]? = input2[j]?) :
    input1.take 252 = input2.take 252 := by
  apply List.ext_getElem?
  intro i
  rw [List.getElem?_take, List.getElem?_take]
  by_cases hi : i < 252
  · rw [if_pos hi, if_pos hi]
    by_cases hil : i < input1.length
    · exact hagree i hil (Or.inl hi)
    · rw [List.getElem?_eq_none (by omega), List.getElem?_eq_none (by omega)]
  · rw [if_neg hi, if_neg hi]

lemma agree_drop (input1 input2 : List Nat) (hlen : input1.length = input2.length)
    (hagree : ∀ j, j < input1.length → j < 252 ∨ 256 ≤ j → input1[j]? = input2[j]?) :
    input1.drop 256 = input2.drop 256 := by
  apply List.ext_getElem?
  intro i
  rw [List.getElem?_drop, List.getElem?_drop]
  by_cases hil : 256 + i < input1.length
  · exact hagree (256 + i) hil (Or.inr (by omega))
  · rw [List.getElem?_eq_none (by omega), List.getElem?_eq_none (by omega)]

/-- C10: the output never depends on input bytes 252-255: equal-length inputs
agreeing everywhere but possibly at offsets 252-255 encode (and serialize) to
identical results; and any input of length between 253 and 256 yields exactly
one block. -/
theorem spec_C10 :
    (∀ input1 input2 : List Nat, input1.length = input2.length →
      (∀ j, j < input1.length → j < 252 ∨ 256 ≤ j → input1[j]? = input2[j]?) →
      Uf2.create input1 = Uf2.create input2 ∧
        (Uf2.create input1).as_bytes = (Uf2.create input2).as_bytes) ∧
    (∀ input : List Nat, 253 ≤ input.length → input.length ≤ 256 →
      (Uf2.create input).blocks.length = 1) := by
  constructor
  · intro input1 input2 hlen hagree
    have h := create_congr input1 input2 (agree_take input1 input2 hlen hagree)
      (agree_drop input1 input2 hlen hagree)
    exact ⟨h, by rw [h]⟩
  · intro input h1 h2
    rw [blocks_length, List.drop_eq_nil_of_le h2]
    rfl

set_option maxHeartbeats 2000000 in
theorem spec_C10_witness :
    (Uf2.create (List.replicate 252 3 ++ [7, 7, 7, 7]) =
        Uf2.create (List.replicate 252 3 ++ [0, 1, 2, 3]) ∧
      (Uf2.create (List.replicate 252 3 ++ [7, 7, 7, 7])).as_bytes =
        (Uf2.create (List.replicate 252 3 ++ [0, 1, 2, 3])).as_bytes) ∧
      (Uf2.create (List.replicate 254 5)).blocks.length = 1 :=
  ⟨spec_C10.1 (List.replicate 252 3 ++ [7, 7, 7, 7]) (List.replicate 252 3 ++ [0, 1, 2, 3])
      (by decide) (by decide),
   spec_C10.2 (List.replicate 254 5) (by decide) (by decide)⟩
